import Mathlib

/-!
# Verification of the MMA planner's session store, validator and statistics engine

Shallow embedding of `src/services/planner_service.py` (session store and
validator) and `src/mma_planner_V0.2/services/stats_service.py` (statistics
engine).  Python dict fields accessed with `.get(key, default)` are modelled
as `Option` fields with the default applied at each use site, exactly where
the source applies it.  Machine arithmetic on counts, minutes and calories is
modelled on `ℤ`, weights and percentages on `ℚ` (Python's `round` is
round-half-to-even, modelled exactly by `pyRound`).  Calendar dates are
modelled by their proleptic-Gregorian ordinal (`ℤ`), which is precisely the
representation Python's `datetime.date` uses for ordering and day arithmetic.
-/

/-- Python's built-in `round` on a real number: round half to even. -/
def pyRound (q : ℚ) : ℤ :=
  let f := ⌊q⌋
  if q - f < 1/2 then f
  else if 1/2 < q - f then f + 1
  else if f % 2 = 0 then f else f + 1

/-- Python's `round(x, 1)`: round to one decimal digit, half to even. -/
def pyRound1 (q : ℚ) : ℚ := (pyRound (q * 10) : ℚ) / 10

/-- Python's string comparison: lexicographic on Unicode code points. -/
def pyStrLt : List Char → List Char → Bool
  | [], [] => false
  | [], _ :: _ => true
  | _ :: _, [] => false
  | a :: as, b :: bs =>
    if a.toNat < b.toNat then true
    else if b.toNat < a.toNat then false
    else pyStrLt as bs

/-- A stored session record (a JSON object).  Fields the Python code reads
with `dict.get` are `Option`s; `none` is an absent key. -/
structure Session where
  id : Option ℤ
  fecha : Option String
  tipo : Option String
  tiempo : Option ℤ
  calorias : Option ℤ
  intensidad : Option String
deriving DecidableEq, Repr

namespace Store

/-- Python's `max(xs, default=d)`. -/
def pyMax (xs : List ℤ) (d : ℤ) : ℤ :=
  match xs with
  | [] => d
  | x :: rest => rest.foldl max x

/-- `load_sessions`: backfill a missing `id` with the record's index, then
sort by `fecha` (missing read as `""`) descending, stably. -/
def loadSessions (store : List Session) : List Session :=
  let withIds := store.enum.map fun p =>
    match p.2.id with
    | none => { p.2 with id := some (p.1 : ℤ) }
    | some _ => p.2
  List.insertionSort
    (fun a b => pyStrLt (a.fecha.getD "").data (b.fecha.getD "").data = false)
    withIds

/-- `max([s.get('id', 0) for s in sessions], default=-1)`. -/
def maxIdOf (sessions : List Session) : ℤ :=
  pyMax (sessions.map fun s => s.id.getD 0) (-1)

/-- `save_session`: load, assign `max_id + 1` as the new id, append, persist.
(The `created_at` timestamp the source also sets is out of the data model.) -/
def saveSession (data : Session) (store : List Session) :
    Session × List Session :=
  let sessions := loadSessions store
  let maxId := maxIdOf sessions
  let newSession := { data with id := some (maxId + 1) }
  (newSession, sessions ++ [newSession])

/-- The list-comprehension guard `s.get('id') != session_id`. -/
def idDiffers (sessionId : ℤ) (s : Session) : Bool := s.id ≠ some sessionId

/-- `delete_session`: load, drop records whose id equals the target, persist
only when the length shrank, and report whether anything was removed. -/
def deleteSession (sessionId : ℤ) (store : List Session) :
    Bool × List Session :=
  let sessions := loadSessions store
  let remaining := sessions.filter (idDiffers sessionId)
  if remaining.length < sessions.length then (true, remaining)
  else (false, store)

end Store

/-! ## Dates: `datetime.strptime(fecha, '%Y-%m-%d').date()`

CPython's `_strptime` matches `%Y` as exactly four digits, `%m` by the
regex `1[0-2]|0[1-9]|[1-9]` and `%d` by `3[01]|[12]\d|0[1-9]|[1-9]`,
requires the whole string to be consumed, and the `datetime` constructor
then checks `1 ≤ year ≤ 9999` and that the day exists in the given month.
A date is represented by its fields and compared through its proleptic
Gregorian ordinal (`date.toordinal`), which is exactly how Python `date`
objects order and step by one day. -/

structure Date where
  year : ℤ
  month : ℕ
  day : ℕ
deriving DecidableEq, Repr

def isLeapYear (y : ℤ) : Bool := y % 4 == 0 && (y % 100 != 0 || y % 400 == 0)

def daysInMonth (y : ℤ) (m : ℕ) : ℕ :=
  if m = 2 then (if isLeapYear y then 29 else 28)
  else if m = 4 ∨ m = 6 ∨ m = 9 ∨ m = 11 then 30
  else 31

def digitVal (c : Char) : ℕ := c.toNat - 48

/-- Month field per the regex `1[0-2]|0[1-9]|[1-9]`, returning the value
and the unconsumed characters. -/
def parseMonth : List Char → Option (ℕ × List Char)
  | '1' :: c :: rest =>
    if '0' ≤ c ∧ c ≤ '2' then some (10 + digitVal c, rest)
    else some (1, c :: rest)
  | '0' :: c :: rest =>
    if '1' ≤ c ∧ c ≤ '9' then some (digitVal c, rest) else none
  | c :: rest =>
    if '1' ≤ c ∧ c ≤ '9' then some (digitVal c, rest) else none
  | [] => none

/-- Day field per the regex `3[01]|[12]\d|0[1-9]|[1-9]`; it must consume
everything left (`strptime` rejects unconverted trailing data). -/
def parseDay : List Char → Option ℕ
  | ['3', c] => if c = '0' ∨ c = '1' then some (30 + digitVal c) else none
  | [c₁, c₂] =>
    if ('1' ≤ c₁ ∧ c₁ ≤ '2') ∧ c₂.isDigit then some (digitVal c₁ * 10 + digitVal c₂)
    else if c₁ = '0' ∧ '1' ≤ c₂ ∧ c₂ ≤ '9' then some (digitVal c₂)
    else none
  | [c] => if '1' ≤ c ∧ c ≤ '9' then some (digitVal c) else none
  | _ => none

def strptimeYMD (s : String) : Option Date :=
  match s.data with
  | y₁ :: y₂ :: y₃ :: y₄ :: '-' :: rest =>
    if y₁.isDigit ∧ y₂.isDigit ∧ y₃.isDigit ∧ y₄.isDigit then
      let y : ℤ := ((digitVal y₁ * 10 + digitVal y₂) * 10 + digitVal y₃) * 10 + digitVal y₄
      match parseMonth rest with
      | some (m, '-' :: rest₂) =>
        match parseDay rest₂ with
        | some d =>
          if 1 ≤ y ∧ d ≤ daysInMonth y m then some ⟨y, m, d⟩ else none
        | none => none
      | _ => none
    else none
  | _ => none

/-- `date.toordinal()`: day count in the proleptic Gregorian calendar with
`0001-01-01` as day 1. -/
def Date.toOrdinal (d : Date) : ℤ :=
  let py := d.year - 1
  let beforeMonth : ℤ :=
    (([0, 0, 31, 59, 90, 120, 151, 181, 212, 243, 273, 304, 334].getD d.month 0 : ℕ) : ℤ)
    + (if 2 < d.month ∧ isLeapYear d.year then 1 else 0)
  365 * py + py / 4 - py / 100 + py / 400 + beforeMonth + (d.day : ℤ)

/-- Parse a session's `fecha` to its day ordinal; `none` when `strptime`
raises `ValueError`. -/
def parseDateOrd (s : String) : Option ℤ := (strptimeYMD s).map Date.toOrdinal

/-! ## Session Validator (`validate_session_data`, `_calculate_calories`)

Input coercions that Python performs on raw JSON values are part of the
model's input: `tiempo` carries the result of `int(data.get('tiempo', 0))`
(`none` when that call raises, `some 0` when the key is absent), `peso`
carries the result of `float(raw_peso)` and `pesoTruthy` the Python
truthiness of the raw value (`False` for an absent key, `0`, `0.0`, `""`,
`None`).  String fields are the raw strings, `none` for an absent key. -/

def isPySpace (c : Char) : Bool :=
  c = ' ' ∨ c = '\t' ∨ c = '\n' ∨ c = '\r' ∨ c = '\x0b' ∨ c = '\x0c'

/-- Python `str.strip()`. -/
def pyStrip (s : String) : String :=
  ⟨((s.data.dropWhile isPySpace).reverse.dropWhile isPySpace).reverse⟩

/-- Python slicing `s[:500]`. -/
def pyTake500 (s : String) : String := ⟨s.data.take 500⟩

instance {ε α : Type} [DecidableEq ε] [DecidableEq α] : DecidableEq (Except ε α) := fun
  | .error e, .error f =>
    if h : e = f then .isTrue (by rw [h]) else .isFalse (by simp [h])
  | .error _, .ok _ => .isFalse (by simp)
  | .ok _, .error _ => .isFalse (by simp)
  | .ok a, .ok b =>
    if h : a = b then .isTrue (by rw [h]) else .isFalse (by simp [h])

structure RawSession where
  fecha : Option String
  tipo : Option String
  tiempo : Option ℤ
  pesoTruthy : Bool
  peso : Option ℚ
  notas : Option String
  intensidad : Option String
deriving DecidableEq, Repr

structure ValidatedSession where
  fecha : String
  tipo : String
  tiempo : ℤ
  peso : ℚ
  calorias : ℤ
  notas : String
  intensidad : String
deriving DecidableEq, Repr

def validTypes : List String :=
  ["Cardio", "Fuerza", "Judo", "MMA", "Striking", "Grappling", "Técnico"]

def metValues : List (String × ℚ) :=
  [("Cardio", 8), ("Fuerza", 6), ("Judo", 10), ("MMA", 12),
   ("Striking", 9), ("Grappling", 10), ("Técnico", 4)]

/-- `met_values.get(tipo, 7.0)`. -/
def metValue (tipo : String) : ℚ :=
  match metValues.find? (fun e => e.1 = tipo) with
  | some e => e.2
  | none => 7

/-- `_calculate_calories`: MET × effective weight × hours, Python-rounded. -/
def calcCalories (tipo : String) (tiempo : ℤ) (peso : ℚ) : ℤ :=
  let p := if peso ≤ 0 then (70 : ℚ) else peso
  pyRound (metValue tipo * p * ((tiempo : ℚ) / 60))

/-- The tail of `validate_session_data` shared by both peso outcomes:
derived calories, truncated notes, defaulted intensity. -/
def mkValidated (fecha tipo : String) (tiempo : ℤ) (peso : ℚ)
    (d : RawSession) : ValidatedSession :=
  { fecha := fecha, tipo := tipo, tiempo := tiempo, peso := peso,
    calorias := calcCalories tipo tiempo peso,
    notas := pyTake500 (pyStrip (d.notas.getD "")),
    intensidad := d.intensidad.getD "Media" }

/-- `validate_session_data`.  The out-of-range `ValueError`s the source
raises inside its `try` blocks for `tiempo` and `peso` are caught by the
enclosing `except` clauses and re-raised with the generic coercion
messages, which is what the final `.error` strings reflect. -/
def validateSessionData (d : RawSession) : Except String ValidatedSession :=
  let fecha := pyStrip (d.fecha.getD "")
  if fecha = "" then .error "La fecha es requerida"
  else
    match strptimeYMD fecha with
    | none => .error "Formato de fecha inválido. Use YYYY-MM-DD"
    | some _ =>
      let tipo := pyStrip (d.tipo.getD "")
      if tipo = "" then .error "El tipo de entrenamiento es requerido"
      else if tipo ∉ validTypes then .error "Tipo inválido"
      else
        match d.tiempo with
        | none => .error "El tiempo debe ser un número entero válido"
        | some tiempo =>
          if tiempo ≤ 0 then .error "El tiempo debe ser un número entero válido"
          else if 480 < tiempo then .error "El tiempo debe ser un número entero válido"
          else
            if d.pesoTruthy then
              match d.peso with
              | none => .error "El peso debe ser un número válido"
              | some p =>
                if p < 30 ∨ 200 < p then .error "El peso debe ser un número válido"
                else .ok (mkValidated fecha tipo tiempo p d)
            else .ok (mkValidated fecha tipo tiempo 0 d)

/-! ## Statistics Engine (`stats_service.py`) -/

namespace Stats

/-- The deduplicated parsed dates of a session list, in encounter order:
the loop `if fecha: try: unique_dates.add(strptime(...))` over the
sessions.  (Python's `set` keeps one copy per date; order is then fixed
by the explicit `sorted` below.) -/
def sessionDates (sessions : List Session) : List ℤ :=
  (sessions.filterMap fun s =>
    let fecha := s.fecha.getD ""
    if fecha = "" then none else parseDateOrd fecha).dedup

/-- `sorted(unique_dates)`. -/
def sortedDatesAsc (sessions : List Session) : List ℤ :=
  List.insertionSort (· ≤ ·) (sessionDates sessions)

/-- `sorted(unique_dates, reverse=True)`. -/
def sortedDatesDesc (sessions : List Session) : List ℤ :=
  (sortedDatesAsc sessions).reverse

/-- The counting loop of `_calculate_current_streak`: walk the descending
date list, counting while each date equals the expected one, stepping the
expectation back a day at a time, and stop at the first mismatch. -/
def descRun (expected : ℤ) : List ℤ → ℕ
  | [] => 0
  | d :: ds => if d = expected then 1 + descRun (d - 1) ds else 0

/-- `_calculate_current_streak` on the sorted date list, given today's
ordinal: streak is 0 unless the most recent date is today or yesterday. -/
def currentStreakList (today : ℤ) (l : List ℤ) : ℕ :=
  match l.reverse with
  | [] => 0
  | d :: ds =>
    if d = today ∨ d = today - 1 then descRun d (d :: ds) else 0

/-- `_calculate_current_streak`. -/
def currentStreak (today : ℤ) (sessions : List Session) : ℕ :=
  if sessions.isEmpty then 0
  else currentStreakList today (sortedDatesAsc sessions)

/-- The scanning loop of `_calculate_longest_streak`: `prev` is
`sorted_dates[i-1]`, `cur` the running streak, `best` the maximum seen. -/
def longestAux (prev : ℤ) (cur best : ℕ) : List ℤ → ℕ
  | [] => best
  | d :: ds =>
    if d = prev + 1 then longestAux d (cur + 1) (max best (cur + 1)) ds
    else longestAux d 1 best ds

/-- `_calculate_longest_streak` on the ascending sorted date list. -/
def longestStreakList : List ℤ → ℕ
  | [] => 0
  | [_] => 1
  | d :: ds => longestAux d 1 1 ds

/-- `_calculate_longest_streak`. -/
def longestStreak (sessions : List Session) : ℕ :=
  if sessions.isEmpty then 0
  else longestStreakList (sortedDatesAsc sessions)

/-- `session.get('intensidad', 'Media')`. -/
def intensidadOf (s : Session) : String := s.intensidad.getD "Media"

/-- `defaultdict(int)` update: `dict[k] += v`, on an insertion-ordered
association list. -/
def bumpZ (k : String) (v : ℤ) : List (String × ℤ) → List (String × ℤ)
  | [] => [(k, v)]
  | (a, b) :: tl => if a = k then (a, b + v) :: tl else (a, b) :: bumpZ k v tl

/-- `dict.get(k, 0)`. -/
def lookupZ (k : String) : List (String × ℤ) → ℤ
  | [] => 0
  | (a, b) :: tl => if a = k then b else lookupZ k tl

/-- `sum(dict.values())`. -/
def sumValues (l : List (String × ℤ)) : ℤ := (l.map (fun e => e.2)).sum

/-- `intensity_counts`. -/
def intensityCounts (sessions : List Session) : List (String × ℤ) :=
  sessions.foldl (fun acc s => bumpZ (intensidadOf s) 1 acc) []

/-- `intensity_time`. -/
def intensityTime (sessions : List Session) : List (String × ℤ) :=
  sessions.foldl (fun acc s => bumpZ (intensidadOf s) (s.tiempo.getD 0) acc) []

/-- `intensity_calories`. -/
def intensityCalories (sessions : List Session) : List (String × ℤ) :=
  sessions.foldl (fun acc s => bumpZ (intensidadOf s) (s.calorias.getD 0) acc) []

structure IntensityBucket where
  count : ℤ
  percentage : ℚ
  total_time : ℤ
  time_percentage : ℚ
  total_calories : ℤ
  avg_time : ℚ
deriving DecidableEq, Repr

/-- One entry of the `result` dict of `_calculate_intensity_stats`. -/
def mkBucket (sessions : List Session) (intensity : String) : IntensityBucket :=
  let totalSessions := sumValues (intensityCounts sessions)
  let totalTime := sumValues (intensityTime sessions)
  let count := lookupZ intensity (intensityCounts sessions)
  let time := lookupZ intensity (intensityTime sessions)
  let calories := lookupZ intensity (intensityCalories sessions)
  { count := count,
    percentage :=
      if 0 < totalSessions then pyRound1 ((count : ℚ) / totalSessions * 100) else 0,
    total_time := time,
    time_percentage :=
      if 0 < totalTime then pyRound1 ((time : ℚ) / totalTime * 100) else 0,
    total_calories := calories,
    avg_time := if 0 < count then pyRound1 ((time : ℚ) / count) else 0 }

structure IntensityDist where
  baja : IntensityBucket
  media : IntensityBucket
  alta : IntensityBucket
deriving DecidableEq, Repr

/-- `_calculate_intensity_stats`: the fixed three-key result dict. -/
def calculateIntensityStats (sessions : List Session) : IntensityDist :=
  { baja := mkBucket sessions "Baja",
    media := mkBucket sessions "Media",
    alta := mkBucket sessions "Alta" }

/-- The running per-type totals held in `type_stats[tipo]`. -/
structure TypeAcc where
  sessions : ℤ
  total_time : ℤ
  total_calories : ℤ
deriving DecidableEq, Repr

/-- `defaultdict` update for one session in `calculate_stats_by_type`. -/
def bumpType (k : String) (t c : ℤ) :
    List (String × TypeAcc) → List (String × TypeAcc)
  | [] => [(k, ⟨1, t, c⟩)]
  | (a, v) :: tl =>
    if a = k then (a, ⟨v.sessions + 1, v.total_time + t, v.total_calories + c⟩) :: tl
    else (a, v) :: bumpType k t c tl

/-- The accumulation loop of `calculate_stats_by_type`. -/
def typeStats (sessions : List Session) : List (String × TypeAcc) :=
  sessions.foldl
    (fun acc s =>
      bumpType (s.tipo.getD "Desconocido") (s.tiempo.getD 0) (s.calorias.getD 0) acc)
    []

structure TypeRow where
  tipo : String
  sessions : ℤ
  total_time : ℤ
  total_calories : ℤ
  avg_time : ℚ
  avg_calories : ℤ
  percentage : ℚ
deriving DecidableEq, Repr

/-- One `result` row of `calculate_stats_by_type` (`n` = `len(sessions)`). -/
def mkTypeRow (n : ℕ) (e : String × TypeAcc) : TypeRow :=
  { tipo := e.1,
    sessions := e.2.sessions,
    total_time := e.2.total_time,
    total_calories := e.2.total_calories,
    avg_time :=
      if 0 < e.2.sessions then pyRound1 ((e.2.total_time : ℚ) / e.2.sessions) else 0,
    avg_calories :=
      if 0 < e.2.sessions then pyRound ((e.2.total_calories : ℚ) / e.2.sessions) else 0,
    percentage :=
      if 0 < n then pyRound1 ((e.2.sessions : ℚ) / n * 100) else 0 }

/-- `calculate_stats_by_type`: rows per distinct tipo, sorted by session
count descending (`list.sort` is stable, so an element is inserted after
the rows with a strictly greater or equal count). -/
def calculateStatsByType (sessions : List Session) : List TypeRow :=
  if sessions.isEmpty then []
  else
    List.insertionSort (fun a b => b.sessions ≤ a.sessions)
      ((typeStats sessions).map (mkTypeRow sessions.length))

/-- The `total_sessions` field of `calculate_comprehensive_stats`:
`len(sessions)`, or 0 through the `_empty_stats` early return. -/
def comprehensiveTotalSessions (sessions : List Session) : ℕ :=
  if sessions.isEmpty then 0 else sessions.length

end Stats

/-! ## Streak lemmas

`maxRunFrom p c l` is a functional reading of the scanning loop of
`_calculate_longest_streak`: the maximum, over the suffix `l`, of every
consecutive-run length, where the run currently in progress ends at value
`p` with length `c`.  `runList a k` is the ascending run
`[a, a+1, …, a+k-1]` and `runListDesc e k` its descending mirror. -/

namespace Stats

def maxRunFrom (p : ℤ) (c : ℕ) : List ℤ → ℕ
  | [] => c
  | d :: ds =>
    if d = p + 1 then maxRunFrom d (c + 1) ds else max c (maxRunFrom d 1 ds)

def runList (a : ℤ) : ℕ → List ℤ
  | 0 => []
  | k + 1 => a :: runList (a + 1) k

def runListDesc (e : ℤ) : ℕ → List ℤ
  | 0 => []
  | k + 1 => e :: runListDesc (e - 1) k

theorem le_maxRunFrom (l : List ℤ) : ∀ p c, c ≤ maxRunFrom p c l := by
  induction l with
  | nil => intro p c; simp [maxRunFrom]
  | cons d ds ih =>
    intro p c
    simp only [maxRunFrom]
    split
    · exact le_trans (Nat.le_succ c) (ih d (c + 1))
    · exact le_max_left _ _

theorem maxRunFrom_mono (l : List ℤ) :
    ∀ p c c', c ≤ c' → maxRunFrom p c l ≤ maxRunFrom p c' l := by
  induction l with
  | nil => intro p c c' h; simpa [maxRunFrom] using h
  | cons d ds ih =>
    intro p c c' h
    simp only [maxRunFrom]
    split
    · exact ih d (c + 1) (c' + 1) (by omega)
    · exact max_le_max h le_rfl

theorem longestAux_eq (l : List ℤ) :
    ∀ p c b, 1 ≤ c → c ≤ b → longestAux p c b l = max b (maxRunFrom p c l) := by
  induction l with
  | nil => intro p c b h1 hb; simp [longestAux, maxRunFrom]; omega
  | cons d ds ih =>
    intro p c b h1 hb
    simp only [longestAux, maxRunFrom]
    split
    · rw [ih d (c + 1) (max b (c + 1)) (by omega) (le_max_right _ _)]
      have := le_maxRunFrom ds d (c + 1)
      omega
    · rw [ih d 1 b (by omega) (by omega)]
      omega

theorem longestStreakList_cons (d : ℤ) (ds : List ℤ) :
    longestStreakList (d :: ds) = maxRunFrom d 1 ds := by
  cases ds with
  | nil => rfl
  | cons e t =>
    have h := longestAux_eq (e :: t) d 1 1 le_rfl le_rfl
    have h2 := le_maxRunFrom (e :: t) d 1
    simp only [longestStreakList, h]
    omega

theorem maxRunFrom_append (xs : List ℤ) :
    ∀ p c d ds, maxRunFrom d 1 ds ≤ maxRunFrom p c (xs ++ d :: ds) := by
  induction xs with
  | nil =>
    intro p c d ds
    simp only [List.nil_append, maxRunFrom]
    split
    · exact maxRunFrom_mono ds d 1 (c + 1) (by omega)
    · exact le_max_right _ _
  | cons x xs ih =>
    intro p c d ds
    simp only [List.cons_append, maxRunFrom]
    split
    · exact ih x (c + 1) d ds
    · exact le_trans (ih x 1 d ds) (le_max_right _ _)

theorem maxRunFrom_runList (k : ℕ) :
    ∀ a c, maxRunFrom a c (runList (a + 1) k) = c + k := by
  induction k with
  | zero => intro a c; simp [runList, maxRunFrom]
  | succ k ih =>
    intro a c
    have h : maxRunFrom a c (runList (a + 1) (k + 1))
        = maxRunFrom (a + 1) (c + 1) (runList (a + 1 + 1) k) := by
      simp [runList, maxRunFrom]
    rw [h, ih (a + 1) (c + 1)]
    omega

theorem runList_snoc (k : ℕ) : ∀ a, runList a (k + 1) = runList a k ++ [a + k] := by
  induction k with
  | zero => intro a; simp [runList]
  | succ k ih =>
    intro a
    have h : runList a (k + 2) = a :: runList (a + 1) (k + 1) := rfl
    rw [h, ih (a + 1)]
    have h2 : a + 1 + (k : ℤ) = a + ((k : ℕ) + 1 : ℕ) := by push_cast; ring
    simp [runList, h2]

theorem runListDesc_reverse (k : ℕ) :
    ∀ e, (runListDesc e k).reverse = runList (e - k + 1) k := by
  induction k with
  | zero => intro e; simp [runListDesc, runList]
  | succ k ih =>
    intro e
    have h1 : e - 1 - (k : ℤ) + 1 = e - k := by ring
    have h2 : e - (k : ℤ) + k = e := by ring
    have h3 : e - ((k : ℕ) + 1 : ℕ) + 1 = e - k := by push_cast; ring
    calc (runListDesc e (k + 1)).reverse
        = (runListDesc (e - 1) k).reverse ++ [e] := by simp [runListDesc]
      _ = runList (e - 1 - k + 1) k ++ [e] := by rw [ih (e - 1)]
      _ = runList (e - k) k ++ [e - k + k] := by rw [h1, h2]
      _ = runList (e - k) (k + 1) := (runList_snoc k (e - k)).symm
      _ = runList (e - ((k : ℕ) + 1 : ℕ) + 1) (k + 1) := by rw [h3]

theorem descRun_decomp (l : List ℤ) :
    ∀ e, ∃ l₂, l = runListDesc e (descRun e l) ++ l₂ := by
  induction l with
  | nil => intro e; exact ⟨[], rfl⟩
  | cons d ds ih =>
    intro e
    by_cases h : d = e
    · subst h
      obtain ⟨l₂, hl⟩ := ih (d - 1)
      refine ⟨l₂, ?_⟩
      have hr : descRun d (d :: ds) = descRun (d - 1) ds + 1 := by
        simp [descRun, Nat.add_comm]
      rw [hr, runListDesc, List.cons_append, ← hl]
    · exact ⟨d :: ds, by simp [descRun, h, runListDesc]⟩

theorem longest_ge_suffix_run (xs : List ℤ) (a : ℤ) (k : ℕ) (hk : 1 ≤ k) :
    k ≤ longestStreakList (xs ++ runList a k) := by
  obtain ⟨j, rfl⟩ : ∃ j, k = j + 1 := ⟨k - 1, by omega⟩
  cases xs with
  | nil =>
    simp only [List.nil_append, runList, longestStreakList_cons,
      maxRunFrom_runList j a 1]
    omega
  | cons x xs =>
    simp only [runList, List.cons_append, longestStreakList_cons]
    have h := maxRunFrom_append xs x 1 a (runList (a + 1) j)
    rw [maxRunFrom_runList j a 1] at h
    omega

theorem currentStreakList_le_longest (today : ℤ) (l : List ℤ) :
    currentStreakList today l ≤ longestStreakList l := by
  rcases h : l.reverse with _ | ⟨d, ds⟩
  · simp [currentStreakList, h]
  · have hl : l = (d :: ds).reverse := by rw [← h, List.reverse_reverse]
    simp only [currentStreakList, h]
    split
    · set k := descRun d (d :: ds) with hk
      have hk1 : 1 ≤ k := by simp [hk, descRun]
      obtain ⟨l₂, hdec⟩ := descRun_decomp (d :: ds) d
      have : l = l₂.reverse ++ runList (d - k + 1) k := by
        rw [hl, ← hk] at *
        rw [hdec, List.reverse_append, runListDesc_reverse]
      rw [this]
      exact longest_ge_suffix_run _ _ _ hk1
    · exact Nat.zero_le _

/-- Claim C5: for every session list and every fixed current date, the
current streak computed by the statistics engine is at most the longest
streak computed from the same list. -/
theorem claim_C5_current_streak_le_longest_streak
    (sessions : List Session) (today : ℤ) :
    currentStreak today sessions ≤ longestStreak sessions := by
  by_cases h : sessions.isEmpty
  · simp [currentStreak, longestStreak, h]
  · simpa [currentStreak, longestStreak, h] using
      currentStreakList_le_longest today (sortedDatesAsc sessions)

/-- Claim C9: when the most recent parseable session date (the head of the
descending sorted date list) lies strictly after the current date, the
current streak is 0: the future date occupies the most-recent slot and
fails the today-or-yesterday recency check. -/
theorem claim_C9_future_date_zeroes_current_streak
    (sessions : List Session) (today d : ℤ)
    (hhead : (sortedDatesDesc sessions).head? = some d) (hfut : today < d) :
    currentStreak today sessions = 0 := by
  unfold currentStreak
  split
  · rfl
  · unfold currentStreakList
    rcases hrev : (sortedDatesAsc sessions).reverse with _ | ⟨x, t⟩
    · simp
    · rw [sortedDatesDesc, hrev] at hhead
      simp only [List.head?_cons, Option.some.injEq] at hhead
      subst hhead
      have hgate : ¬ (x = today ∨ x = today - 1) := by omega
      simp [hgate]

/-- A stored session carrying only an intensity label (other keys absent),
for concrete computations. -/
def sessionWithIntensity (i : String) : Session := ⟨none, none, none, none, none, some i⟩

/-- A stored session carrying only a date, for concrete computations. -/
def sessionWithFecha (f : String) : Session := ⟨none, some f, none, none, none, none⟩

/-- A stored session with every key absent. -/
def blankSession : Session := ⟨none, none, none, none, none, none⟩

/-- Claim C3 counterexample: a list containing one session — whose `fecha`
is absent, hence unparseable — has `longest_streak = 0`, not ≥ 1, refuting
the claim for session lists with no parseable dates. -/
theorem claim_C3_counterexample :
    [blankSession].length = 1 ∧ longestStreak [blankSession] = 0 :=
  ⟨rfl, rfl⟩

/-- Claim C3 as amended: if at least one session contributes a parseable
date (the parsed date multiset is non-empty), the longest streak is at
least 1. -/
theorem claim_C3_longest_streak_pos (sessions : List Session)
    (h : sessionDates sessions ≠ []) : 1 ≤ longestStreak sessions := by
  have hne : sessions.isEmpty = false := by
    cases sessions with
    | nil => exact absurd rfl h
    | cons a t => rfl
  have hsorted : sortedDatesAsc sessions ≠ [] := by
    intro hs
    apply h
    have hperm := List.perm_insertionSort (· ≤ ·) (sessionDates sessions)
    rw [sortedDatesAsc] at hs
    rw [hs] at hperm
    exact (hperm.symm).eq_nil
  rcases hl : sortedDatesAsc sessions with _ | ⟨d, ds⟩
  · exact absurd hl hsorted
  · rw [longestStreak, hne]
    simp only [Bool.false_eq_true, if_false, hl, longestStreakList_cons]
    exact le_maxRunFrom ds d 1

/-- Witness for the amended Claim C3 at a concrete one-session list. -/
theorem claim_C3_longest_streak_pos_witness :
    sessionDates [sessionWithFecha "2024-10-01"] ≠ [] ∧
    1 ≤ longestStreak [sessionWithFecha "2024-10-01"] :=
  ⟨by decide, claim_C3_longest_streak_pos _ (by decide)⟩

/-- Witness for Claim C9 at a concrete list holding a session on the
current date and one on the following day: the streak is still 0. -/
theorem claim_C9_witness :
    (sortedDatesDesc [sessionWithFecha "2025-01-01", sessionWithFecha "2025-01-02"]).head?
        = some (Date.toOrdinal ⟨2025, 1, 2⟩) ∧
    Date.toOrdinal ⟨2025, 1, 1⟩ < Date.toOrdinal ⟨2025, 1, 2⟩ ∧
    currentStreak (Date.toOrdinal ⟨2025, 1, 1⟩)
      [sessionWithFecha "2025-01-01", sessionWithFecha "2025-01-02"] = 0 :=
  ⟨by decide, by decide,
    claim_C9_future_date_zeroes_current_streak
      [sessionWithFecha "2025-01-01", sessionWithFecha "2025-01-02"]
      (Date.toOrdinal ⟨2025, 1, 1⟩) (Date.toOrdinal ⟨2025, 1, 2⟩)
      (by decide) (by decide)⟩

/-! ## Intensity-distribution lemmas -/

theorem lookupZ_bumpZ (k kk : String) (v : ℤ) (l : List (String × ℤ)) :
    lookupZ k (bumpZ kk v l) = lookupZ k l + (if kk = k then v else 0) := by
  induction l with
  | nil => by_cases h : kk = k <;> simp [bumpZ, lookupZ, h]
  | cons e tl ih =>
    obtain ⟨a, b⟩ := e
    by_cases ha : a = kk
    · subst ha
      by_cases h : a = k <;> simp [bumpZ, lookupZ, h]
    · by_cases h : a = k
      · subst h
        have hk : ¬ kk = a := fun hc => ha hc.symm
        simp [bumpZ, lookupZ, ha, hk]
      · simp [bumpZ, lookupZ, ha, h, ih]

theorem sumValues_bumpZ (kk : String) (v : ℤ) (l : List (String × ℤ)) :
    sumValues (bumpZ kk v l) = sumValues l + v := by
  induction l with
  | nil => simp [bumpZ, sumValues]
  | cons e tl ih =>
    obtain ⟨a, b⟩ := e
    by_cases ha : a = kk <;> simp [bumpZ, sumValues, ha] <;>
      simp [sumValues] at ih <;> omega

theorem lookupZ_foldl_bumpZ (f : Session → String) (g : Session → ℤ) (k : String)
    (ss : List Session) :
    ∀ acc, lookupZ k (ss.foldl (fun a s => bumpZ (f s) (g s) a) acc)
      = lookupZ k acc + ((ss.filter (fun s => f s = k)).map g).sum := by
  induction ss with
  | nil => intro acc; simp
  | cons s ss ih =>
    intro acc
    simp only [List.foldl_cons]
    rw [ih, lookupZ_bumpZ]
    by_cases h : f s = k <;> simp [List.filter_cons, h]
    ring

theorem sumValues_foldl_bumpZ (f : Session → String) (g : Session → ℤ)
    (ss : List Session) :
    ∀ acc, sumValues (ss.foldl (fun a s => bumpZ (f s) (g s) a) acc)
      = sumValues acc + (ss.map g).sum := by
  induction ss with
  | nil => intro acc; simp
  | cons s ss ih =>
    intro acc
    simp only [List.foldl_cons]
    rw [ih, sumValues_bumpZ]
    simp
    ring

theorem sum_map_one {α : Type} (l : List α) :
    (l.map (fun _ => (1 : ℤ))).sum = l.length := by
  induction l with
  | nil => simp
  | cons a t ih => simp [ih]; omega

/-- The number of sessions carrying exactly the intensity label `k`
(after the `'Media'` default for an absent key). -/
def countIntensity (k : String) (sessions : List Session) : ℤ :=
  ((sessions.filter (fun s => intensidadOf s = k)).length : ℤ)

theorem intensityCounts_lookup (k : String) (sessions : List Session) :
    lookupZ k (intensityCounts sessions) = countIntensity k sessions := by
  have h := lookupZ_foldl_bumpZ intensidadOf (fun _ => 1) k sessions []
  rw [intensityCounts, h, sum_map_one]
  simp [lookupZ, countIntensity]

theorem intensityCounts_total (sessions : List Session) :
    sumValues (intensityCounts sessions) = sessions.length := by
  have h := sumValues_foldl_bumpZ intensidadOf (fun _ => 1) sessions []
  rw [intensityCounts, h, sum_map_one]
  simp [sumValues]

theorem mkBucket_count_percentage (sessions : List Session)
    (h : sessions ≠ []) (lbl : String) :
    (mkBucket sessions lbl).count = countIntensity lbl sessions ∧
    (mkBucket sessions lbl).percentage
      = pyRound1 ((countIntensity lbl sessions : ℚ) / (sessions.length : ℚ) * 100) := by
  have hlen : 0 < sessions.length := List.length_pos.mpr h
  have hpos : (0 : ℤ) < sumValues (intensityCounts sessions) := by
    rw [intensityCounts_total]; exact_mod_cast hlen
  refine ⟨?_, ?_⟩
  · simp [mkBucket, intensityCounts_lookup]
  · have hlen2 : (0 : ℤ) < ((sessions.length : ℕ) : ℤ) := by exact_mod_cast hlen
    simp only [mkBucket, intensityCounts_lookup, intensityCounts_total, if_pos hlen2]
    norm_cast

/-- Claim C1 counterexample: with one `Media` session and one session
labelled `Extrema` (outside the canonical set), the canonical-labelled
count is 1, yet the engine reports `Media` with percentage 50, not the 100
the claim's canonical-only total would require: the non-canonical session
IS included in the percentage denominator. -/
theorem claim_C1_counterexample :
    (calculateIntensityStats
        [sessionWithIntensity "Media", sessionWithIntensity "Extrema"]).media.count = 1 ∧
    ((([sessionWithIntensity "Media", sessionWithIntensity "Extrema"] : List Session).filter
        (fun s => intensidadOf s ∈ (["Baja", "Media", "Alta"] : List String))).length = 1) ∧
    (calculateIntensityStats
        [sessionWithIntensity "Media", sessionWithIntensity "Extrema"]).media.percentage = 50 ∧
    pyRound1 ((1 : ℚ) / 1 * 100) = 100 ∧ (50 : ℚ) ≠ 100 := by
  refine ⟨by decide, by decide, ?_, by norm_num [pyRound1, pyRound], by norm_num⟩
  have h1 : lookupZ "Media"
      (intensityCounts [sessionWithIntensity "Media", sessionWithIntensity "Extrema"]) = 1 := by
    decide
  have h2 : sumValues
      (intensityCounts [sessionWithIntensity "Media", sessionWithIntensity "Extrema"]) = 2 := by
    decide
  simp only [calculateIntensityStats, mkBucket, h1, h2]
  norm_num [pyRound1, pyRound]

/-- Claim C1 as amended: a session whose `intensidad` lies outside
{Baja, Media, Alta} is counted in none of the three buckets — each
bucket's count is the number of sessions labelled exactly with that
intensity — but it IS included in the total used to compute each bucket's
percentage, which is `round(count / total_all_sessions * 100, 1)` over
all sessions, canonically labelled or not. -/
theorem claim_C1_intensity_buckets (sessions : List Session) (h : sessions ≠ []) :
    ((calculateIntensityStats sessions).baja.count = countIntensity "Baja" sessions ∧
      (calculateIntensityStats sessions).baja.percentage
        = pyRound1 ((countIntensity "Baja" sessions : ℚ) / (sessions.length : ℚ) * 100)) ∧
    ((calculateIntensityStats sessions).media.count = countIntensity "Media" sessions ∧
      (calculateIntensityStats sessions).media.percentage
        = pyRound1 ((countIntensity "Media" sessions : ℚ) / (sessions.length : ℚ) * 100)) ∧
    ((calculateIntensityStats sessions).alta.count = countIntensity "Alta" sessions ∧
      (calculateIntensityStats sessions).alta.percentage
        = pyRound1 ((countIntensity "Alta" sessions : ℚ) / (sessions.length : ℚ) * 100)) :=
  ⟨mkBucket_count_percentage sessions h "Baja",
   mkBucket_count_percentage sessions h "Media",
   mkBucket_count_percentage sessions h "Alta"⟩

/-- Witness for the amended Claim C1 at a concrete two-session list. -/
theorem claim_C1_intensity_buckets_witness :
    (([sessionWithIntensity "Media", sessionWithIntensity "Extrema"] : List Session) ≠ []) ∧
    (calculateIntensityStats
        [sessionWithIntensity "Media", sessionWithIntensity "Extrema"]).media.count
      = countIntensity "Media" [sessionWithIntensity "Media", sessionWithIntensity "Extrema"] :=
  ⟨by decide,
    (claim_C1_intensity_buckets
      [sessionWithIntensity "Media", sessionWithIntensity "Extrema"] (by decide)).2.1.1⟩

/-! ## By-type lemmas -/

/-- The sum of the `sessions` counters of a per-type accumulator list. -/
def accSessionsSum (l : List (String × TypeAcc)) : ℤ :=
  (l.map (fun e => e.2.sessions)).sum

/-- The sum of the `sessions` fields over result rows. -/
def rowsSessionsSum (rows : List TypeRow) : ℤ :=
  (rows.map (fun r => r.sessions)).sum

theorem accSessionsSum_bumpType (k : String) (t c : ℤ) (l : List (String × TypeAcc)) :
    accSessionsSum (bumpType k t c l) = accSessionsSum l + 1 := by
  induction l with
  | nil => simp [bumpType, accSessionsSum]
  | cons e tl ih =>
    obtain ⟨a, v⟩ := e
    by_cases ha : a = k <;>
      simp [bumpType, accSessionsSum, ha] <;>
      simp [accSessionsSum] at ih <;> omega

theorem accSessionsSum_typeStats (sessions : List Session) :
    ∀ acc, accSessionsSum (sessions.foldl
        (fun acc s =>
          bumpType (s.tipo.getD "Desconocido") (s.tiempo.getD 0) (s.calorias.getD 0) acc)
        acc)
      = accSessionsSum acc + sessions.length := by
  induction sessions with
  | nil => intro acc; simp
  | cons s ss ih =>
    intro acc
    simp only [List.foldl_cons]
    rw [ih, accSessionsSum_bumpType]
    simp
    omega

/-- Claim C8: for every non-empty session list, the per-type rows'
session counts sum to the `total_sessions` of the comprehensive summary,
namely the length of the input list. -/
theorem claim_C8_by_type_counts_sum (sessions : List Session) (h : sessions ≠ []) :
    rowsSessionsSum (calculateStatsByType sessions)
      = (comprehensiveTotalSessions sessions : ℤ) := by
  have hne : sessions.isEmpty = false := by
    cases sessions with
    | nil => exact absurd rfl h
    | cons a t => rfl
  have hperm : List.Perm
      (List.insertionSort (fun a b : TypeRow => b.sessions ≤ a.sessions)
        ((typeStats sessions).map (mkTypeRow sessions.length)))
      ((typeStats sessions).map (mkTypeRow sessions.length)) :=
    List.perm_insertionSort _ _
  have hsum : rowsSessionsSum
      (List.insertionSort (fun a b : TypeRow => b.sessions ≤ a.sessions)
        ((typeStats sessions).map (mkTypeRow sessions.length)))
      = rowsSessionsSum ((typeStats sessions).map (mkTypeRow sessions.length)) := by
    simpa [rowsSessionsSum] using (hperm.map (fun r => r.sessions)).sum_eq
  have hrows : rowsSessionsSum ((typeStats sessions).map (mkTypeRow sessions.length))
      = accSessionsSum (typeStats sessions) := by
    simp [rowsSessionsSum, accSessionsSum, List.map_map, mkTypeRow]
    rfl
  have hacc : accSessionsSum (typeStats sessions) = sessions.length := by
    have := accSessionsSum_typeStats sessions []
    simpa [typeStats, accSessionsSum] using this
  simp only [calculateStatsByType, comprehensiveTotalSessions, hne,
    Bool.false_eq_true, if_false]
  rw [hsum, hrows, hacc]

/-- Witness for Claim C8 at a concrete two-session list with distinct
types. -/
theorem claim_C8_witness :
    (([blankSession, sessionWithIntensity "Alta"] : List Session) ≠ []) ∧
    rowsSessionsSum (calculateStatsByType [blankSession, sessionWithIntensity "Alta"])
      = (comprehensiveTotalSessions [blankSession, sessionWithIntensity "Alta"] : ℤ) :=
  ⟨by decide, claim_C8_by_type_counts_sum [blankSession, sessionWithIntensity "Alta"] (by decide)⟩

end Stats

/-! ## Store lemmas and claims -/

namespace Store

theorem le_foldl_max (l : List ℤ) : ∀ a : ℤ, a ≤ l.foldl max a := by
  induction l with
  | nil => intro a; exact le_rfl
  | cons x t ih =>
    intro a
    exact le_trans (le_max_left a x) (ih (max a x))

theorem mem_le_foldl_max (l : List ℤ) :
    ∀ a x : ℤ, x ∈ l → x ≤ l.foldl max a := by
  induction l with
  | nil => intro a x hx; exact absurd hx (List.not_mem_nil x)
  | cons y t ih =>
    intro a x hx
    rcases List.mem_cons.mp hx with rfl | hxt
    · exact le_trans (le_max_right a x) (le_foldl_max t (max a x))
    · exact ih (max a y) x hxt

theorem mem_le_pyMax (xs : List ℤ) (d x : ℤ) (h : x ∈ xs) : x ≤ pyMax xs d := by
  cases xs with
  | nil => exact absurd h (List.not_mem_nil x)
  | cons y t =>
    rcases List.mem_cons.mp h with rfl | hxt
    · exact le_foldl_max t x
    · exact mem_le_foldl_max t y x hxt

theorem length_filter_lt_of_mem_not {α : Type} (p : α → Bool) (l : List α)
    (x : α) (hx : x ∈ l) (hpx : p x = false) :
    (l.filter p).length < l.length := by
  induction l with
  | nil => exact absurd hx (List.not_mem_nil x)
  | cons a t ih =>
    rcases List.mem_cons.mp hx with rfl | hxt
    · rw [List.filter_cons, hpx]
      exact Nat.lt_succ_of_le (List.length_filter_le p t)
    · rw [List.filter_cons]
      cases hpa : p a
      · simpa using Nat.lt_succ_of_lt (ih hxt)
      · simpa using Nat.succ_lt_succ (ih hxt)

end Store

/-- Claim C2 counterexample: start from an empty store, save twice
(ids 0 and 1), delete id 1, save again — the new session receives id 1,
the id of the session just deleted, so ids ARE reused after deletion
within a run. -/
theorem claim_C2_counterexample :
    (Store.saveSession (Stats.sessionWithFecha "2024-01-02")
        (Store.saveSession (Stats.sessionWithFecha "2024-01-01") []).2).1.id = some 1 ∧
    (Store.deleteSession 1
        (Store.saveSession (Stats.sessionWithFecha "2024-01-02")
          (Store.saveSession (Stats.sessionWithFecha "2024-01-01") []).2).2).1 = true ∧
    (Store.saveSession (Stats.sessionWithFecha "2024-01-03")
        (Store.deleteSession 1
          (Store.saveSession (Stats.sessionWithFecha "2024-01-02")
            (Store.saveSession (Stats.sessionWithFecha "2024-01-01") []).2).2).2).1.id
      = some 1 := by
  refine ⟨by decide, by decide, by decide⟩

/-- Claim C2 as amended: each save assigns the new session the id
`max existing id + 1` (missing ids read as 0, the fold starting at -1),
which differs from every id in the loaded live set — so the live set's
ids stay unique at each insertion — and the persisted collection is the
loaded one with the new session appended.  (Ids of deleted sessions can
be reused; see the counterexample.) -/
theorem claim_C2_save_assigns_fresh_max_id (data : Session) (store : List Session) :
    (Store.saveSession data store).1.id
      = some (Store.maxIdOf (Store.loadSessions store) + 1) ∧
    (∀ s ∈ Store.loadSessions store, s.id ≠ (Store.saveSession data store).1.id) ∧
    (Store.saveSession data store).2
      = Store.loadSessions store ++ [(Store.saveSession data store).1] := by
  refine ⟨rfl, ?_, rfl⟩
  intro s hs heq
  have hle : s.id.getD 0 ≤ Store.maxIdOf (Store.loadSessions store) :=
    Store.mem_le_pyMax _ _ _ (List.mem_map_of_mem _ hs)
  have hid : (Store.saveSession data store).1.id
      = some (Store.maxIdOf (Store.loadSessions store) + 1) := rfl
  rw [hid] at heq
  rw [heq] at hle
  simp only [Option.getD_some] at hle
  omega

/-- Witness for the amended Claim C2 at a concrete one-session store. -/
theorem claim_C2_save_assigns_fresh_max_id_witness :
    (Store.saveSession Stats.blankSession [Stats.sessionWithFecha "2024-01-01"]).1.id
      = some (Store.maxIdOf (Store.loadSessions [Stats.sessionWithFecha "2024-01-01"]) + 1) ∧
    (∀ s ∈ Store.loadSessions [Stats.sessionWithFecha "2024-01-01"],
      s.id ≠ (Store.saveSession Stats.blankSession [Stats.sessionWithFecha "2024-01-01"]).1.id) ∧
    (Store.saveSession Stats.blankSession [Stats.sessionWithFecha "2024-01-01"]).2
      = Store.loadSessions [Stats.sessionWithFecha "2024-01-01"]
        ++ [(Store.saveSession Stats.blankSession [Stats.sessionWithFecha "2024-01-01"]).1] :=
  claim_C2_save_assigns_fresh_max_id Stats.blankSession [Stats.sessionWithFecha "2024-01-01"]

/-- Claim C7: deleting an id absent from the (loaded) stored collection
reports `False` — surfaced by the API as 404 — and leaves the store
unchanged; deleting a present id reports `True` and removes exactly the
sessions bearing that id. -/
theorem claim_C7_delete_by_id (store : List Session) (sid : ℤ) :
    ((∀ s ∈ Store.loadSessions store, s.id ≠ some sid) →
      Store.deleteSession sid store = (false, store)) ∧
    ((∃ s ∈ Store.loadSessions store, s.id = some sid) →
      (Store.deleteSession sid store).1 = true ∧
      (Store.deleteSession sid store).2
        = (Store.loadSessions store).filter (Store.idDiffers sid)) := by
  constructor
  · intro hnone
    have hfil : (Store.loadSessions store).filter (Store.idDiffers sid)
        = Store.loadSessions store :=
      List.filter_eq_self.mpr
        (fun a ha => by simpa [Store.idDiffers] using hnone a ha)
    simp [Store.deleteSession, hfil]
  · rintro ⟨s, hs, hid⟩
    have hlt : ((Store.loadSessions store).filter (Store.idDiffers sid)).length
        < (Store.loadSessions store).length := by
      apply Store.length_filter_lt_of_mem_not _ _ s hs
      simp [Store.idDiffers, hid]
    simp [Store.deleteSession, hlt]

/-- Witness for Claim C7: on a store whose loaded ids are {0, 1},
deleting 999 reports not-found and changes nothing, while deleting 1
reports success and drops exactly that session. -/
theorem claim_C7_delete_by_id_witness :
    (Store.deleteSession 999
        [Stats.sessionWithFecha "2024-01-01", Stats.sessionWithFecha "2024-01-01"]
      = (false, [Stats.sessionWithFecha "2024-01-01", Stats.sessionWithFecha "2024-01-01"])) ∧
    ((Store.deleteSession 1
        [Stats.sessionWithFecha "2024-01-01", Stats.sessionWithFecha "2024-01-01"]).1 = true ∧
      (Store.deleteSession 1
          [Stats.sessionWithFecha "2024-01-01", Stats.sessionWithFecha "2024-01-01"]).2
        = (Store.loadSessions
            [Stats.sessionWithFecha "2024-01-01", Stats.sessionWithFecha "2024-01-01"]).filter
            (Store.idDiffers 1)) :=
  ⟨(claim_C7_delete_by_id
      [Stats.sessionWithFecha "2024-01-01", Stats.sessionWithFecha "2024-01-01"] 999).1
      (by decide),
   (claim_C7_delete_by_id
      [Stats.sessionWithFecha "2024-01-01", Stats.sessionWithFecha "2024-01-01"] 1).2
      (by decide)⟩

/-- Claim C10: saving into an empty stored collection assigns the new
session id 0 — the maximum-id fold starts at -1, so the first id issued
by a fresh store is 0, not 1. -/
theorem claim_C10_first_id_is_zero (data : Session) :
    (Store.saveSession data []).1.id = some 0 := by
  have h : (Store.saveSession data []).1.id = some (-1 + 1) := rfl
  rw [h]
  norm_num

/-! ## Validator claims -/

theorem calcCalories_eq_spec (tipo : String) (tiempo : ℤ) (peso : ℚ) :
    calcCalories tipo tiempo peso
      = pyRound (metValue tipo * (if 0 < peso then peso else 70) * ((tiempo : ℚ) / 60)) := by
  rcases le_or_lt peso 0 with hp | hp
  · simp [calcCalories, hp, not_lt.mpr hp]
  · simp [calcCalories, not_le.mpr hp, hp]

/-- Claim C4: every validated session's derived `calorias` equals
`MET(tipo) * effective_weight * (tiempo/60)` rounded Python-style, where
the effective weight is `peso` when positive and the default 70 otherwise. -/
theorem claim_C4_calories_formula (d : RawSession) (v : ValidatedSession)
    (h : validateSessionData d = .ok v) :
    v.calorias = pyRound (metValue v.tipo * (if 0 < v.peso then v.peso else 70)
      * ((v.tiempo : ℚ) / 60)) := by
  simp only [validateSessionData] at h
  repeat' split at h
  all_goals try exact Except.noConfusion h
  all_goals injection h with hv
  all_goals subst hv
  all_goals simp [mkValidated, calcCalories_eq_spec]

/-- The example input of the spec: Grappling, 90 minutes, 80 kg. -/
def grapplingRaw : RawSession :=
  ⟨some "2024-10-01", some "Grappling", some 90, true, some 80, none, none⟩

/-- Witness for Claim C4: the spec's example session validates and its
derived calories are `round(10.0 * 80 * (90/60)) = 1200`. -/
theorem claim_C4_calories_formula_witness :
    validateSessionData grapplingRaw
      = .ok (mkValidated "2024-10-01" "Grappling" 90 80 grapplingRaw) ∧
    (mkValidated "2024-10-01" "Grappling" 90 80 grapplingRaw).calorias
      = pyRound (metValue "Grappling" * (if 0 < (80 : ℚ) then (80 : ℚ) else 70)
          * ((90 : ℚ) / 60)) ∧
    (mkValidated "2024-10-01" "Grappling" 90 80 grapplingRaw).calorias = 1200 := by
  refine ⟨rfl, claim_C4_calories_formula grapplingRaw _ rfl, ?_⟩
  have hm : metValue "Grappling" = 10 := by decide
  have hc : calcCalories "Grappling" 90 80 = 1200 := by
    rw [calcCalories]
    norm_num [hm, pyRound]
  exact hc

/-- Claim C6: the validator succeeds exactly when the stripped `fecha` is
non-empty and parses as `YYYY-MM-DD`, the stripped `tipo` is in the fixed
enumeration, `tiempo` coerces to an integer in 1..480, and `peso` — when
its raw value is truthy (present and nonzero) — coerces to a float in
30..200; every such input yields a canonical record without error. -/
theorem claim_C6_validator_ok_iff (d : RawSession) :
    (∃ v, validateSessionData d = .ok v) ↔
      ((pyStrip (d.fecha.getD "") ≠ "" ∧
          (strptimeYMD (pyStrip (d.fecha.getD ""))).isSome) ∧
        pyStrip (d.tipo.getD "") ∈ validTypes ∧
        (∃ n, d.tiempo = some n ∧ 1 ≤ n ∧ n ≤ 480) ∧
        (d.pesoTruthy = true → ∃ p, d.peso = some p ∧ 30 ≤ p ∧ p ≤ 200)) := by
  by_cases hfe : pyStrip (d.fecha.getD "") = ""
  · refine iff_of_false ?_ ?_
    · rintro ⟨v, hv⟩
      simp [validateSessionData, hfe] at hv
    · rintro ⟨⟨hf, _⟩, _⟩
      exact hf hfe
  · rcases hst : strptimeYMD (pyStrip (d.fecha.getD "")) with _ | dt
    · refine iff_of_false ?_ ?_
      · rintro ⟨v, hv⟩
        simp [validateSessionData, hfe, hst] at hv
      · rintro ⟨⟨_, hp⟩, _⟩
        simp at hp
    · by_cases hmem : pyStrip (d.tipo.getD "") ∈ validTypes
      · have hte : pyStrip (d.tipo.getD "") ≠ "" := by
          intro hc
          rw [hc] at hmem
          revert hmem
          decide
        rcases htm : d.tiempo with _ | t
        · refine iff_of_false ?_ ?_
          · rintro ⟨v, hv⟩
            simp [validateSessionData, hfe, hst, hte, hmem, htm] at hv
          · rintro ⟨_, _, ⟨n, hn, _⟩, _⟩
            exact Option.noConfusion hn
        · by_cases h0 : t ≤ 0
          · refine iff_of_false ?_ ?_
            · rintro ⟨v, hv⟩
              simp [validateSessionData, hfe, hst, hte, hmem, htm, h0] at hv
            · rintro ⟨_, _, ⟨n, hn, h1, _⟩, _⟩
              injection hn with hn
              omega
          · by_cases h4 : 480 < t
            · refine iff_of_false ?_ ?_
              · rintro ⟨v, hv⟩
                simp [validateSessionData, hfe, hst, hte, hmem, htm, h0, h4] at hv
              · rintro ⟨_, _, ⟨n, hn, _, h2⟩, _⟩
                injection hn with hn
                omega
            · cases hptr : d.pesoTruthy
              · refine iff_of_true ?_ ?_
                · exact ⟨mkValidated (pyStrip (d.fecha.getD ""))
                    (pyStrip (d.tipo.getD "")) t 0 d,
                    by simp [validateSessionData, hfe, hst, hte, hmem, htm, h0, h4, hptr]⟩
                · exact ⟨⟨hfe, by simp⟩, hmem, ⟨t, rfl, by omega, by omega⟩,
                    fun hc => Bool.noConfusion hc⟩
              · rcases hpo : d.peso with _ | p
                · refine iff_of_false ?_ ?_
                  · rintro ⟨v, hv⟩
                    simp [validateSessionData, hfe, hst, hte, hmem, htm,
                      h0, h4, hptr, hpo] at hv
                  · rintro ⟨_, _, _, hpes⟩
                    obtain ⟨p, hp, _⟩ := hpes rfl
                    exact Option.noConfusion hp
                · by_cases hr : p < 30 ∨ 200 < p
                  · refine iff_of_false ?_ ?_
                    · rintro ⟨v, hv⟩
                      simp [validateSessionData, hfe, hst, hte, hmem, htm,
                        h0, h4, hptr, hpo, hr] at hv
                    · rintro ⟨_, _, _, hpes⟩
                      obtain ⟨q, hq, hq1, hq2⟩ := hpes rfl
                      injection hq with hq
                      subst hq
                      rcases hr with hr | hr <;> linarith
                  · refine iff_of_true ?_ ?_
                    · exact ⟨mkValidated (pyStrip (d.fecha.getD ""))
                        (pyStrip (d.tipo.getD "")) t p d,
                        by simp [validateSessionData, hfe, hst, hte, hmem, htm,
                          h0, h4, hptr, hpo, hr]⟩
                    · rcases not_or.mp hr with ⟨hr1, hr2⟩
                      exact ⟨⟨hfe, by simp⟩, hmem, ⟨t, rfl, by omega, by omega⟩,
                        fun _ => ⟨p, rfl, not_lt.mp hr1, not_lt.mp hr2⟩⟩
      · refine iff_of_false ?_ ?_
        · rintro ⟨v, hv⟩
          by_cases hte2 : pyStrip (d.tipo.getD "") = ""
          · simp [validateSessionData, if_neg hfe, hst, hte2] at hv
          · simp [validateSessionData, if_neg hfe, hst, hte2, hmem] at hv
        · rintro ⟨_, hm, _⟩
          exact hmem hm

/-- Witness for Claim C6: the spec's example input satisfies the success
conditions and the validator accepts it. -/
theorem claim_C6_validator_ok_iff_witness :
    (∃ v, validateSessionData grapplingRaw = .ok v) ∧
      ((pyStrip (grapplingRaw.fecha.getD "") ≠ "" ∧
          (strptimeYMD (pyStrip (grapplingRaw.fecha.getD ""))).isSome) ∧
        pyStrip (grapplingRaw.tipo.getD "") ∈ validTypes ∧
        (∃ n, grapplingRaw.tiempo = some n ∧ 1 ≤ n ∧ n ≤ 480) ∧
        (grapplingRaw.pesoTruthy = true →
          ∃ p, grapplingRaw.peso = some p ∧ 30 ≤ p ∧ p ≤ 200)) :=
  ⟨⟨mkValidated "2024-10-01" "Grappling" 90 80 grapplingRaw, rfl⟩,
    (claim_C6_validator_ok_iff grapplingRaw).mp
      ⟨mkValidated "2024-10-01" "Grappling" 90 80 grapplingRaw, rfl⟩⟩
